import Mathlib

/-!
Verification of the aw-core event datastore against its specification.

Times are modelled in integer microseconds (the resolution of Python's
datetime and timedelta).  Durations stored as Decimal seconds in the
database are likewise represented exactly in microseconds.
-/

/-! ### Time model (aw_core/models.py) -/

/-- A Python datetime: wall-clock microseconds since the epoch plus an
optional timezone offset in whole minutes (None models a naive datetime;
ISO-8601 offsets are whole minutes). -/
structure DT where
  wall : Int
  tz : Option Int
deriving DecidableEq

/-- The datetime.microsecond field: microseconds within the current second
extended to the sub-second part of the wall clock, here the wall value
modulo one million. -/
def DT.microsecond (d : DT) : Int := d.wall % 1000000

/-- datetime.astimezone(timezone.utc): convert the wall clock to UTC by
subtracting the offset (in the setter this is only applied to aware
datetimes, whose tz is present). -/
def DT.astimezoneUTC (d : DT) : DT :=
  { wall := d.wall - (d.tz.getD 0) * 60000000, tz := some 0 }

/-- aw_core.models._timestamp_parse: truncate microseconds to whole
milliseconds via ts.replace(microsecond=int(ts.microsecond/1000)*1000),
then attach UTC when no timezone is set.  String inputs arrive here
already parsed by iso8601.parse_date (which itself defaults a missing
offset to UTC). -/
def _timestamp_parse (d : DT) : DT :=
  let m := d.wall % 1000000
  let w := d.wall - m + (m / 1000) * 1000
  match d.tz with
  | some o => { wall := w, tz := some o }
  | none => { wall := w, tz := some 0 }

/-- The Event.timestamp setter: _timestamp_parse(timestamp).astimezone(utc). -/
def timestamp_setter (d : DT) : DT :=
  (_timestamp_parse d).astimezoneUTC

/-! ### The Event record (aw_core/models.py) -/

/-- aw_core.models.Event, with the constructor-normalised UTC timestamp and
the duration in microseconds.  The data dictionary is modelled as an
association list of string keys and string values (unique keys). -/
structure Event where
  id : Option Int := none
  timestamp : Int
  duration : Int
  data : List (String × String) := []
deriving DecidableEq

/-- Event.app: data.get('app', ''). -/
def Event.app (e : Event) : String := (e.data.lookup "app").getD ""

/-- Event.title: data.get('title', ''). -/
def Event.title (e : Event) : String := (e.data.lookup "title").getD ""

/-- Event.url: data.get('url', ''). -/
def Event.url (e : Event) : String := (e.data.lookup "url").getD ""

/-- Helper for strContains: walk the haystack looking for the needle as a
prefix at each position. -/
def strContainsAux (pat : List Char) : List Char → Bool
  | [] => pat.isEmpty
  | c :: rest => pat.isPrefixOf (c :: rest) || strContainsAux pat rest

/-- Substring test, the semantics of the Python expression pat in s. -/
def strContains (s pat : String) : Bool :=
  strContainsAux pat.toList s.toList

/-- str.lower, character by character. -/
def strToLower (s : String) : String :=
  (s.toList.map Char.toLower).asString

/-- str.endswith. -/
def strEndsWith (s pat : String) : Bool :=
  pat.toList.isSuffixOf s.toList

/-- Remove the last n characters of a string. -/
def strDropRight (s : String) (n : Nat) : String :=
  (s.toList.take (s.toList.length - n)).asString

/-- Helper for strReplace: replace non-overlapping occurrences of the
pattern left to right (the pattern is non-empty at every call site). -/
def replaceAux (pat rep : List Char) : List Char → List Char
  | [] => []
  | c :: rest =>
    if pat.isPrefixOf (c :: rest) ∧ pat ≠ [] then
      rep ++ replaceAux pat rep ((c :: rest).drop pat.length)
    else c :: replaceAux pat rep rest
termination_by l => l.length
decreasing_by
  · rename_i h
    simp only [List.length_drop, List.length_cons]
    have : 1 ≤ pat.length := by
      cases pat with
      | nil => exact absurd rfl h.2
      | cons a t => simp
    omega
  · simp

/-- str.replace: replace every occurrence of the pattern. -/
def strReplace (s pat rep : String) : String :=
  (replaceAux pat.toList rep.toList s.toList).asString

/-- Helper for strSplitOn: split at non-overlapping occurrences of the
separator, left to right (the separator is non-empty at every call
site). -/
def splitOnAux (sep : List Char) (acc : List Char) :
    List Char → List (List Char)
  | [] => [acc.reverse]
  | c :: rest =>
    if sep.isPrefixOf (c :: rest) ∧ sep ≠ [] then
      acc.reverse :: splitOnAux sep [] ((c :: rest).drop sep.length)
    else splitOnAux sep (c :: acc) rest
termination_by l => l.length
decreasing_by
  · rename_i h
    simp only [List.length_drop, List.length_cons]
    have : 1 ≤ sep.length := by
      cases sep with
      | nil => exact absurd rfl h.2
      | cons a t => simp
    omega
  · simp

/-- str.split with a non-empty separator. -/
def strSplitOn (s sep : String) : List String :=
  (splitOnAux sep.toList [] s.toList).map List.asString

/-- The .exe-stripping idiom used by the Event constructor and by
EventModel.from_event: if the lowercased name contains ".exe", remove a
trailing ".exe" with the case-sensitive regex r'\.exe$'. -/
def stripExe (s : String) : String :=
  if strContains (strToLower s) ".exe" then
    (if strEndsWith s ".exe" then strDropRight s 4 else s)
  else s

/-- Modelled from the spec: tldextract.extract(url).domain is an external
library call absent from the source tree; the spec describes the result as
the registrable domain of the url.  Modelled as the second-to-last
dot-separated label of the host part. -/
def tldextract_domain (url : String) : String :=
  let noScheme :=
    strReplace (strReplace url "https://" "") "http://" ""
  let host := (strSplitOn noScheme "/").headD ""
  let labels := strSplitOn host "."
  if labels.length ≥ 2 then (labels.getD (labels.length - 2) "") else host

/-- Event.application_name as computed by the Event constructor: the url's
domain when a url is present (falling back to app when the domain is
empty), else app, with a trailing .exe stripped. -/
def Event.application_name (e : Event) : String :=
  let a := if e.url = "" then e.app else tldextract_domain e.url
  let a := if a = "" then e.app else a
  stripExe a

/-! ### The duration setter and event construction (aw_core/models.py) -/

/-- The Duration argument accepted by Event.__init__ and the duration
setter: a timedelta (microseconds), a real number of seconds (integral
values modelled exactly), or a value of any other type. -/
inductive PyDuration where
  | td : Int → PyDuration
  | real : Int → PyDuration
  | other : PyDuration
deriving DecidableEq

/-- The Event.duration setter: a timedelta is stored as is, a real number
is converted with timedelta(seconds=duration), and any other type raises
TypeError.  No sign check is performed. -/
def duration_setter : PyDuration → Except String Int
  | .td m => .ok m
  | .real s => .ok (s * 1000000)
  | .other => .error "TypeError"

/-- Event.__init__ with an already-normalised timestamp: assigns the
timestamp, runs the duration setter (propagating its TypeError), and
stores the data dictionary. -/
def event_init (ts : Int) (dur : PyDuration) (data : List (String × String)) :
    Except String Event := do
  let d ← duration_setter dur
  .ok { id := none, timestamp := ts, duration := d, data := data }

/-! ### Comparison operators (aw_core/models.py) -/

/-- An arbitrary Python object offered to a comparison operator: either an
Event or a value of some other type. -/
inductive PyObj where
  | ev : Event → PyObj
  | nonEvent : PyObj
deriving DecidableEq

/-- Whether the object is an Event (the isinstance check in the operators). -/
def PyObj.isEvent : PyObj → Bool
  | .ev _ => true
  | .nonEvent => false

/-- Event.__eq__: equality on (timestamp, duration, data) for Event
operands; raises TypeError for anything else. -/
def Event.pyEq (e : Event) : PyObj → Except String Bool
  | .ev o =>
      .ok (decide (e.timestamp = o.timestamp ∧ e.duration = o.duration ∧
        e.data = o.data))
  | .nonEvent => .error "TypeError"

/-- Event.__lt__: timestamp ordering for Event operands; raises TypeError
for anything else. -/
def Event.pyLt (e : Event) : PyObj → Except String Bool
  | .ev o => .ok (decide (e.timestamp < o.timestamp))
  | .nonEvent => .error "TypeError"

/-! ### Claims C5, C3, C10 -/

/-- C5: the timestamp setter normalises every input to UTC (a missing
timezone is treated as UTC), truncates microseconds to whole milliseconds,
and is idempotent, so re-parsing the serialisation of a parsed timestamp
yields the same instant. -/
theorem C5_timestamp_canonical (t : DT) :
    (timestamp_setter t).tz = some 0 ∧
    (timestamp_setter t).microsecond % 1000 = 0 ∧
    timestamp_setter (timestamp_setter t) = timestamp_setter t := by
  obtain ⟨w, tz⟩ := t
  cases tz with
  | none =>
      refine ⟨rfl, ?_, ?_⟩
      · simp only [timestamp_setter, _timestamp_parse, DT.astimezoneUTC,
          DT.microsecond, Option.getD]
        omega
      · simp only [timestamp_setter, _timestamp_parse, DT.astimezoneUTC,
          Option.getD]
        congr 1
        omega
  | some o =>
      refine ⟨rfl, ?_, ?_⟩
      · simp only [timestamp_setter, _timestamp_parse, DT.astimezoneUTC,
          DT.microsecond, Option.getD]
        omega
      · simp only [timestamp_setter, _timestamp_parse, DT.astimezoneUTC,
          Option.getD]
        congr 1
        omega

/-- C3 counterexample: constructing an Event with a duration of minus one
second succeeds and stores a negative duration, so negative durations are
not rejected. -/
theorem C3_counterexample :
    event_init 0 (.real (-1)) [] =
      .ok { id := none, timestamp := 0, duration := -1000000, data := [] } ∧
    (-1000000 : Int) < 0 := by
  constructor
  · rfl
  · decide

/-- C3 amended: the duration setter only rejects values of invalid type
with a TypeError; negative timedeltas and negative numbers of seconds are
accepted unchanged, so events with negative durations can be constructed. -/
theorem C3_amended (m s ts : Int) (data : List (String × String)) :
    event_init ts (.td m) data =
      .ok { id := none, timestamp := ts, duration := m, data := data } ∧
    event_init ts (.real s) data =
      .ok { id := none, timestamp := ts, duration := s * 1000000,
            data := data } ∧
    event_init ts .other data = .error "TypeError" := by
  refine ⟨rfl, rfl, rfl⟩

/-- C10: comparing an Event with any non-Event object, for equality or for
ordering, raises a TypeError instead of returning False. -/
theorem C10_comparisons_raise (e : Event) (x : PyObj)
    (h : x.isEvent = false) :
    e.pyEq x = .error "TypeError" ∧ e.pyLt x = .error "TypeError" := by
  cases x with
  | ev o => simp [PyObj.isEvent] at h
  | nonEvent => exact ⟨rfl, rfl⟩

/-- C10 witness: a concrete Event compared with a non-Event raises on both
operators. -/
theorem C10_comparisons_raise_witness :
    ({ timestamp := 0, duration := 0 : Event}).pyEq .nonEvent =
      .error "TypeError" ∧
    ({ timestamp := 0, duration := 0 : Event}).pyLt .nonEvent =
      .error "TypeError" :=
  C10_comparisons_raise { timestamp := 0, duration := 0 } .nonEvent rfl

/-! ### Heartbeat transforms (aw_transform/heartbeats.py) -/

/-- aw_transform.heartbeats.heartbeat_merge: when the two events carry the
same data and the heartbeat's timestamp falls in the window from the last
event's start to its end plus the pulsetime, extend the last event's
duration to max(old duration, (heartbeat start - last start) + heartbeat
duration); a negative last duration refuses the merge. -/
def heartbeat_merge (last_event heartbeat : Event) (pulsetime : Int) :
    Option Event :=
  if last_event.data = heartbeat.data then
    let pulseperiod_end :=
      last_event.timestamp + last_event.duration + pulsetime
    if last_event.timestamp ≤ heartbeat.timestamp ∧
        heartbeat.timestamp ≤ pulseperiod_end then
      if last_event.duration < 0 then none
      else
        some { last_event with
          duration := max last_event.duration
            ((heartbeat.timestamp - last_event.timestamp) +
              heartbeat.duration) }
    else none
  else none

/-- The loop of heartbeat_reduce: fold the remaining heartbeats into the
current last reduced event, appending a fresh entry whenever the merge
declines.  (The in-place effects of the Python original are modelled
separately in the heap section.) -/
def hbReduceGo (pulsetime : Int) (last : Event) (done : List Event) :
    List Event → List Event
  | [] => done ++ [last]
  | hb :: t =>
    match heartbeat_merge last hb pulsetime with
    | some merged => hbReduceGo pulsetime merged done t
    | none => hbReduceGo pulsetime hb (done ++ [last]) t

/-- aw_transform.heartbeats.heartbeat_reduce: pop the first event and merge
each following heartbeat into the tail of the reduced list. -/
def heartbeat_reduce (events : List Event) (pulsetime : Int) : List Event :=
  match events with
  | [] => []
  | e :: rest => hbReduceGo pulsetime e [] rest

/-- Modelled from the spec: sum_durations is imported by the query layer
but its definition is not in the source tree; the spec lists it among the
transforms with obvious semantics, the sum of the events' durations. -/
def sum_durations (events : List Event) : Int :=
  (events.map Event.duration).sum

/-- C6 counterexample: two identical fully-overlapping events merge into
one whose duration is the max, not the sum, so heartbeat reduction shrinks
the total duration (pulsetime 0 satisfies p ≥ 0). -/
theorem C6_counterexample :
    sum_durations (heartbeat_reduce
        [{ timestamp := 0, duration := 10000000, data := [("a", "b")] },
         { timestamp := 0, duration := 10000000, data := [("a", "b")] }] 0) <
      sum_durations
        [{ timestamp := 0, duration := 10000000, data := [("a", "b")] },
         { timestamp := 0, duration := 10000000, data := [("a", "b")] }] := by
  decide

/-- Consecutive events do not overlap: each event ends no later than the
next one starts. -/
def NonOverlapping (events : List Event) : Prop :=
  List.Chain' (fun a b => a.timestamp + a.duration ≤ b.timestamp) events

/-- Invariant step for the C6 amended proof: the reduced total dominates
the consumed total, tracking a lower bound S on the current last event's
duration and the fact that last.timestamp + S precedes the next input. -/
theorem hbReduceGo_sum (pulsetime : Int) :
    ∀ (rest : List Event) (last : Event) (done : List Event) (S : Int),
      S ≤ last.duration →
      (∀ b, rest.head? = some b → last.timestamp + S ≤ b.timestamp) →
      NonOverlapping rest →
      sum_durations done + S + sum_durations rest ≤
        sum_durations (hbReduceGo pulsetime last done rest) := by
  intro rest
  induction rest with
  | nil =>
      intro last done S hS _ _
      simp only [hbReduceGo, sum_durations, List.map_append, List.sum_append,
        List.map_cons, List.map_nil, List.sum_cons, List.sum_nil,
        List.map_nil]
      omega
  | cons hb t ih =>
      intro last done S hS hhead hchain
      have hlink : last.timestamp + S ≤ hb.timestamp := hhead hb rfl
      have hchain' : NonOverlapping t := (List.chain'_cons'.mp hchain).2
      have hnext : ∀ b, t.head? = some b →
          hb.timestamp + hb.duration ≤ b.timestamp := by
        intro b hb'
        exact (List.chain'_cons'.mp hchain).1 b hb'
      simp only [hbReduceGo]
      cases hmerge : heartbeat_merge last hb pulsetime with
      | some merged =>
          have hmts : merged.timestamp = last.timestamp ∧
              merged.duration = max last.duration
                ((hb.timestamp - last.timestamp) + hb.duration) := by
            simp only [heartbeat_merge] at hmerge
            by_cases h1 : last.data = hb.data
            · simp only [h1, if_true] at hmerge
              by_cases h2 : last.timestamp ≤ hb.timestamp ∧
                  hb.timestamp ≤ last.timestamp + last.duration + pulsetime
              · simp only [h2, if_true] at hmerge
                by_cases h3 : last.duration < 0
                · simp [h3] at hmerge
                · simp only [h3, if_false] at hmerge
                  cases hmerge
                  exact ⟨rfl, rfl⟩
              · simp [h2] at hmerge
            · simp [h1] at hmerge
          have hge : S + hb.duration ≤ merged.duration := by
            have : (hb.timestamp - last.timestamp) + hb.duration ≤
                merged.duration := by
              rw [hmts.2]; exact le_max_right _ _
            omega
          have := ih merged done (S + hb.duration) hge
            (by
              intro b hb'
              have := hnext b hb'
              rw [hmts.1]
              omega)
            hchain'
          simp only [sum_durations, List.map_cons, List.sum_cons] at *
          omega
      | none =>
          have := ih hb (done ++ [last]) hb.duration le_rfl
            (by
              intro b hb'
              have := hnext b hb'
              omega)
            hchain'
          simp only [sum_durations, List.map_append, List.sum_append,
            List.map_cons, List.sum_cons, List.map_nil, List.sum_nil] at *
          omega

/-- C6 amended: heartbeat reduction never shrinks the total duration for
lists whose consecutive events do not overlap; for overlapping events the
max-based merge can shrink the total (see the counterexample). -/
theorem C6_amended (L : List Event) (p : Int) (h : NonOverlapping L) :
    sum_durations L ≤ sum_durations (heartbeat_reduce L p) := by
  cases L with
  | nil => simp [heartbeat_reduce]
  | cons e rest =>
      have hhead : ∀ b, rest.head? = some b →
          e.timestamp + e.duration ≤ b.timestamp := by
        intro b hb'
        exact (List.chain'_cons'.mp h).1 b hb'
      have := hbReduceGo_sum p rest e [] e.duration le_rfl hhead
        (List.chain'_cons'.mp h).2
      simp only [heartbeat_reduce, sum_durations, List.map_nil, List.sum_nil,
        List.map_cons, List.sum_cons] at *
      omega

/-- C6 amended witness: a concrete non-overlapping list within pulsetime,
where reduction merges and the total does not shrink. -/
theorem C6_amended_witness :
    NonOverlapping
      [{ timestamp := 0, duration := 1000000, data := [("a", "b")] },
       { timestamp := 2000000, duration := 1000000, data := [("a", "b")] }] ∧
    sum_durations
        [{ timestamp := 0, duration := 1000000, data := [("a", "b")] },
         { timestamp := 2000000, duration := 1000000, data := [("a", "b")] }] ≤
      sum_durations (heartbeat_reduce
        [{ timestamp := 0, duration := 1000000, data := [("a", "b")] },
         { timestamp := 2000000, duration := 1000000, data := [("a", "b")] }]
        5000000) :=
  ⟨List.chain'_pair.mpr (by decide),
   C6_amended _ 5000000 (List.chain'_pair.mpr (by decide))⟩

/-! ### chunk_events_by_key (aw_transform/chunk_events_by_key.py) -/

/-- The chunk event built by chunk_events_by_key: its data dictionary holds
the shared key's value and the list of original subevents. -/
structure ChunkEvent where
  timestamp : Int
  duration : Int
  keyVal : String
  subevents : List Event
deriving DecidableEq

/-- The timediff computed by the loop body of chunk_events_by_key: the gap
from the end of the LAST EVENT OF THE INPUT LIST (events[-1] in the
source, not the previous event) to the current event's start; the default
of timedelta(seconds=999999999) applies when that reference is absent. -/
def chunkTimediff (lastEv : Option Event) (e : Event) : Int :=
  match lastEv with
  | some le => e.timestamp - (le.timestamp + le.duration)
  | none => 999999999000000

/-- The loop of chunk_events_by_key: cur is chunked_events[-1] and done the
chunks before it; an event lacking the key stops the whole loop (break). -/
def chunkGo (key : String) (p : Int) (lastEv : Option Event)
    (cur : Option ChunkEvent) (done : List ChunkEvent) :
    List Event → List ChunkEvent
  | [] => done ++ cur.toList
  | e :: rest =>
    match e.data.lookup key with
    | none => done ++ cur.toList
    | some kv =>
      match cur with
      | none =>
          chunkGo key p lastEv
            (some { timestamp := e.timestamp, duration := e.duration,
                    keyVal := kv, subevents := [e] }) done rest
      | some c =>
          if c.keyVal = kv ∧ chunkTimediff lastEv e < p then
            chunkGo key p lastEv
              (some { c with
                duration := c.duration + e.duration,
                subevents := c.subevents ++ [e] }) done rest
          else
            chunkGo key p lastEv
              (some { timestamp := e.timestamp, duration := e.duration,
                      keyVal := kv, subevents := [e] }) (done ++ [c]) rest

/-- aw_transform.chunk_events_by_key: walk the events, merging into the
current chunk when the keys agree and the timediff (measured against the
final event of the input list) is under the pulsetime. -/
def chunk_events_by_key (events : List Event) (key : String)
    (pulsetime : Int := 5000000) : List ChunkEvent :=
  chunkGo key pulsetime events.getLast? none [] events

/-- C7 counterexample: two consecutive events share the key but their real
start-to-end gap (99 s) is far above the pulsetime (5 s); the code still
merges them into a single chunk because it measures the gap against the
last event of the whole input list, which makes the timediff negative. -/
theorem C7_counterexample :
    (chunk_events_by_key
        [{ timestamp := 0, duration := 1000000, data := [("k", "a")] },
         { timestamp := 100000000, duration := 1000000,
           data := [("k", "a")] }] "k" 5000000).length = 1 ∧
    ¬ ((100000000 : Int) - (0 + 1000000) < 5000000) := by
  constructor
  · rfl
  · decide

/-- Merging step lemma for C7: when every remaining event carries the
shared key value and its timediff (against the fixed events[-1] reference)
is under the pulsetime, the loop folds them all into the current chunk. -/
theorem chunkGo_merge_all (key : String) (p : Int) (lastEv : Option Event)
    (v : String) :
    ∀ (rest : List Event) (c : ChunkEvent) (done : List ChunkEvent),
      c.keyVal = v →
      (∀ e ∈ rest, e.data.lookup key = some v) →
      (∀ e ∈ rest, chunkTimediff lastEv e < p) →
      chunkGo key p lastEv (some c) done rest =
        done ++ [{ c with
          duration := c.duration + sum_durations rest,
          subevents := c.subevents ++ rest }] := by
  intro rest
  induction rest with
  | nil =>
      intro c done _ _ _
      simp [chunkGo, sum_durations]
  | cons e t ih =>
      intro c done hck hk hgap
      have hke : e.data.lookup key = some v := hk e (List.mem_cons_self e t)
      have hge : chunkTimediff lastEv e < p :=
        hgap e (List.mem_cons_self e t)
      simp only [chunkGo, hke]
      rw [if_pos ⟨by rw [hck], hge⟩]
      rw [ih _ done (by simpa using hck)
        (fun x hx => hk x (List.mem_cons_of_mem _ hx))
        (fun x hx => hgap x (List.mem_cons_of_mem _ hx))]
      simp [sum_durations, List.append_assoc, add_assoc]

/-- C7 amended: events are merged into one chunk exactly under the code's
condition, where the gap is measured from the end of the final event of
the input list (events[-1]), not from the previous event; in particular,
when all events share the key's value and each tail event's timediff
against that final event is under the pulsetime, the whole list becomes a
single chunk holding the shared value and all original events as
subevents. -/
theorem C7_amended (e0 : Event) (es : List Event) (key v : String) (p : Int)
    (hk : ∀ e ∈ e0 :: es, e.data.lookup key = some v)
    (hgap : ∀ e ∈ es, chunkTimediff ((e0 :: es).getLast?) e < p) :
    chunk_events_by_key (e0 :: es) key p =
      [{ timestamp := e0.timestamp,
         duration := e0.duration + sum_durations es,
         keyVal := v, subevents := e0 :: es }] := by
  have hk0 : e0.data.lookup key = some v := hk e0 (List.mem_cons_self e0 es)
  simp only [chunk_events_by_key, chunkGo, hk0]
  rw [chunkGo_merge_all key p ((e0 :: es).getLast?) v es _ [] rfl
    (fun x hx => hk x (List.mem_cons_of_mem _ hx)) hgap]
  simp

/-- C7 amended witness: two adjacent events with the shared key merge into
a single chunk collecting both as subevents. -/
theorem C7_amended_witness :
    chunk_events_by_key
        [{ timestamp := 0, duration := 1000000, data := [("k", "a")] },
         { timestamp := 2000000, duration := 1000000,
           data := [("k", "a")] }] "k" 5000000 =
      [{ timestamp := 0, duration := 2000000, keyVal := "a",
         subevents :=
           [{ timestamp := 0, duration := 1000000, data := [("k", "a")] },
            { timestamp := 2000000, duration := 1000000,
              data := [("k", "a")] }] }] := by
  have := C7_amended
    { timestamp := 0, duration := 1000000, data := [("k", "a")] }
    [{ timestamp := 2000000, duration := 1000000, data := [("k", "a")] }]
    "k" "a" 5000000
    (by intro e he; fin_cases he <;> rfl)
    (by intro e he; fin_cases he; decide)
  simpa [sum_durations] using this

/-! ### The encrypted peewee storage (aw_datastore/storages/peewee.py) -/

/-- aw_core.util.get_domain: strip scheme and www., take the host, and
abbreviate it from its dot-separated parts. -/
def get_domain (url : String) : String :=
  if url = "" then url
  else
    let u := strReplace
      (strReplace (strReplace url "https://" "") "http://" "") "www." ""
    let parts := strSplitOn u "/"
    let domain_parts := strSplitOn (parts.headD "") "."
    if domain_parts.length > 2 then
      (domain_parts.getD 0 "") ++ " - " ++ (domain_parts.getD 1 "")
    else if domain_parts.length = 2 then domain_parts.getD 0 ""
    else parts.headD ""

/-- re.split over a three-character alternation (whitespace, separator,
whitespace), scanning left to right without overlap, as used on titles in
EventModel.from_event. -/
def reSplit3Aux (seps : List Char) (acc : List Char) :
    List Char → List String
  | c1 :: c2 :: c3 :: rest =>
    if c1.isWhitespace && seps.contains c2 && c3.isWhitespace then
      acc.reverse.asString :: reSplit3Aux seps [] rest
    else reSplit3Aux seps (c1 :: acc) (c2 :: c3 :: rest)
  | l => [(acc.reverse ++ l).asString]
termination_by l => l.length
decreasing_by
  · simp; omega
  · simp

/-- Modelled from the spec: remove_more_page_suffix is imported from
aw_core.util but its definition is absent from the source tree and the
spec does not describe it; modelled as the identity on the title. -/
def remove_more_page_suffix (s : String) : String := s

/-- The application_name computed by EventModel.from_event: domain (or
OneDrive for sharepoint urls) when a url is present, else the app with
.exe stripped, then the special cases for ApplicationFrameHost/Code,
explorer, and localhost/10/14 app names that rewrite it from the title. -/
def from_event_app_name (ev : Event) : String :=
  let app_name :=
    if ev.url = "" then
      stripExe ((ev.data.lookup "app").getD "")
    else
      let d := get_domain ev.url
      if strContains ev.url "sharepoint.com" then "OneDrive" else d
  let app_name := stripExe app_name
  let app_name :=
    if strContains app_name "ApplicationFrameHost" ||
        strContains app_name "Code" then
      let titles := reSplit3Aux ['-', '|'] [] ev.title.toList
      if titles.length > 1 then titles.getD (titles.length - 2) ""
      else titles.getD (titles.length - 1) ""
    else app_name
  let app_name := if strContains app_name "explorer" then ev.title
    else app_name
  if strContains app_name "localhost" || strContains app_name "10" ||
      strContains app_name "14" then
    remove_more_page_suffix
      ((reSplit3Aux ['—', '-', '|'] [] ev.title.toList).headD "")
  else app_name

/-- A row of the event table (peewee.EventModel), duration kept in exact
microseconds (Decimal seconds in the database). -/
structure EventRow where
  id : Int
  bucket : Int
  timestamp : Int
  duration : Int
  data : List (String × String)
  app : String
  title : String
  url : String
  application_name : String
  server_sync_status : Int
deriving DecidableEq

/-- The event row EventModel.from_event builds: the event's fields plus
the derived application_name, with sync status 0. -/
def freshRow (bucket nextId : Int) (ev : Event) : EventRow :=
  { id := nextId, bucket := bucket, timestamp := ev.timestamp,
    duration := ev.duration, data := ev.data, app := ev.app,
    title := ev.title, url := ev.url,
    application_name := from_event_app_name ev,
    server_sync_status := 0 }

/-- EventModel.from_event: build an unsaved row (id assigned at save,
modelled by the nextId argument) when both app and title are non-empty,
else None.  The ApplicationModel upsert performed alongside touches only
the application table and is not part of the event-row state.  insert_one
only reaches this call with both keys present. -/
def from_event (bucket nextId : Int) (ev : Event) : Option EventRow :=
  if (ev.data.lookup "app").getD "" ≠ "" ∧
      (ev.data.lookup "title").getD "" ≠ "" then
    some (freshRow bucket nextId ev)
  else none

/-- PeeweeStorage._get_last_event_by_app_title_pulsetime: the most recent
row (over all buckets) matching the application_name and title whose
timestamp is at least utcnow() minus 70 seconds; ties keep the earlier
row. -/
def lastEventByAppTitlePulsetime (rows : List EventRow) (now : Int)
    (app title : String) : Option EventRow :=
  let cutoff := now - 70000000
  (rows.filter (fun r => r.application_name = app && r.title = title &&
      decide (cutoff ≤ r.timestamp))).foldl
    (fun acc r =>
      match acc with
      | none => some r
      | some b => if b.timestamp < r.timestamp then some r else some b)
    none

/-- PeeweeStorage.insert_one on the event-row state: none models an
uncaught KeyError when app or title is absent from the data; otherwise the
pair of the rows after the call and the id the returned event carries.
With both fields non-empty, a recent row with matching application_name
and title (for a non-afk name) absorbs the new duration and resets its
sync status; else the fresh row is saved; an event with an empty app or
title only logs and returns the event unchanged. -/
def peewee_insert_one (rows : List EventRow) (now nextId bucket : Int)
    (ev : Event) : Option (List EventRow × Option Int) :=
  match ev.data.lookup "app", ev.data.lookup "title" with
  | some a, some t =>
    if t ≠ "" ∧ a ≠ "" then
      match from_event bucket nextId ev with
      | some erow =>
        match lastEventByAppTitlePulsetime rows now ev.application_name
            ev.title with
        | some r =>
          if strContains ev.application_name "afk" then
            some (rows ++ [{ erow with server_sync_status := 0 }],
              some nextId)
          else
            some (rows.map (fun x =>
              if x.id = r.id then
                { x with
                  duration := x.duration + ev.duration,
                  server_sync_status := 0 }
              else x), some r.id)
        | none =>
          some (rows ++ [{ erow with server_sync_status := 0 }],
            some nextId)
      | none => some (rows, none)
    else some (rows, ev.id)
  | _, _ => none

/-- The range WHERE clauses of PeeweeStorage._where_range: the 24-hour
pruning clause and the duration-aware lower bound for starttime, and the
upper bound on the timestamp for endtime. -/
def peewee_where_range (st et : Option Int) (r : EventRow) : Bool :=
  (match st with
   | some s => decide (s - 86400000000 ≤ r.timestamp) &&
       decide (s ≤ r.timestamp + r.duration)
   | none => true) &&
  (match et with
   | some t => decide (r.timestamp ≤ t)
   | none => true)

/-- PeeweeStorage.get_eventcount: count of the bucket's rows matching the
range clauses. -/
def peewee_get_eventcount (rows : List EventRow) (bucket : Int)
    (st et : Option Int) : Nat :=
  (rows.filter (fun r => r.bucket == bucket &&
    peewee_where_range st et r)).length

/-- Stable insertion used to model Python's stable sorts: the new element
goes before the first element with a key not smaller than its own. -/
def insortBy {α : Type} (f : α → Int) (a : α) : List α → List α
  | [] => [a]
  | b :: t => if f a ≤ f b then a :: b :: t else b :: insortBy f a t

/-- Stable ascending sort by an integer key. -/
def sortByKey {α : Type} (f : α → Int) (l : List α) : List α :=
  l.foldr (insortBy f) []

/-- The in-place trim applied by PeeweeStorage.get_events to each fetched
event: move a timestamp before starttime up to starttime shortening the
duration, then clip the duration at endtime. -/
def trimEvent (st et : Option Int) (e : Event) : Event :=
  let e1 :=
    match st with
    | some s =>
      if e.timestamp < s then
        { e with timestamp := s, duration := (e.timestamp + e.duration) - s }
      else e
    | none => e
  match et with
  | some t =>
    if e1.timestamp + e1.duration > t then
      { e1 with duration := t - e1.timestamp }
    else e1
  | none => e1

/-- PeeweeStorage.get_events: empty for limit 0; otherwise select the
bucket's rows matching the range clauses, order by timestamp descending,
apply the limit (negative means no limit), convert rows to events, and
trim each to the window. -/
def peewee_get_events (rows : List EventRow) (bucket limit : Int)
    (st et : Option Int) : List Event :=
  if limit = 0 then []
  else
    let selected := rows.filter (fun r => r.bucket == bucket &&
      peewee_where_range st et r)
    let ordered := (sortByKey (fun r => r.timestamp) selected).reverse
    let limited := if limit < 0 then ordered else ordered.take limit.toNat
    let events := limited.map (fun r =>
      ({ id := some r.id, timestamp := r.timestamp, duration := r.duration,
         data := r.data } : Event))
    events.map (trimEvent st et)

/-- MemoryStorage.get_events on the stored event values: sort ascending by
timestamp and reverse, filter to events whose end reaches starttime and
whose start is at most endtime, then apply the limit; no trimming is
performed. -/
def memory_select (db : List Event) (limit : Int)
    (starttime endtime : Option Int) : List Event :=
  let events := (sortByKey (fun e => e.timestamp) db).reverse
  let events :=
    match starttime with
    | some s => events.filter (fun e => decide (s ≤ e.timestamp + e.duration))
    | none => events
  let events :=
    match endtime with
    | some t => events.filter (fun e => decide (e.timestamp ≤ t))
    | none => events
  if limit = 0 then [] else if limit < 0 then events
  else events.take limit.toNat

/-! ### Claims C2 and C4 -/

/-- C2 counterexample: MemoryStorage.get_events does not trim; an event
stored at timestamp 0 with 10 s duration is returned unchanged from the
window [5 s, 8 s], with its timestamp before the window start. -/
theorem C2_counterexample :
    memory_select
        [{ timestamp := 0, duration := 10000000,
           data := [("app", "x"), ("title", "t")] }]
        (-1) (some 5000000) (some 8000000) =
      [{ timestamp := 0, duration := 10000000,
         data := [("app", "x"), ("title", "t")] }] ∧
    ¬ ((5000000 : Int) ≤ 0) := by
  exact ⟨rfl, by decide⟩

/-- C2 amended: only PeeweeStorage.get_events trims events to the query
window, and it does so exactly: every returned event satisfies start ≤
timestamp and timestamp + duration ≤ end; MemoryStorage.get_events merely
filters to overlapping events and returns them untrimmed (see the
counterexample). -/
theorem C2_amended (rows : List EventRow) (bucket limit s t : Int)
    (e : Event) (he : e ∈ peewee_get_events rows bucket limit (some s)
      (some t)) :
    s ≤ e.timestamp ∧ e.timestamp + e.duration ≤ t := by
  unfold peewee_get_events at he
  by_cases h0 : limit = 0
  · simp [h0] at he
  · simp only [h0, if_false, List.mem_map] at he
    obtain ⟨x, _, rfl⟩ := he
    obtain ⟨xid, xts, xdur, xdata⟩ := x
    dsimp only [trimEvent]
    split_ifs <;> refine ⟨?_, ?_⟩ <;> simp_all

/-- C2 amended witness: the event of the counterexample, fetched through
the peewee path, comes back trimmed to the window. -/
theorem C2_amended_witness :
    ({ timestamp := 5000000, duration := 3000000,
       data := [("app", "x"), ("title", "t")], id := some 1 } : Event) ∈
      peewee_get_events
        [{ id := 1, bucket := 7, timestamp := 0, duration := 10000000,
           data := [("app", "x"), ("title", "t")], app := "x",
           title := "t", url := "", application_name := "x",
           server_sync_status := 0 }] 7 (-1) (some 5000000)
        (some 8000000) ∧
    (5000000 : Int) ≤ 5000000 ∧ (5000000 : Int) + 3000000 ≤ 8000000 := by
  have hcomp : peewee_get_events
      [{ id := 1, bucket := 7, timestamp := 0, duration := 10000000,
         data := [("app", "x"), ("title", "t")], app := "x",
         title := "t", url := "", application_name := "x",
         server_sync_status := 0 }] 7 (-1) (some 5000000)
      (some 8000000) =
    [{ timestamp := 5000000, duration := 3000000,
       data := [("app", "x"), ("title", "t")], id := some 1 }] := rfl
  have hmem : ({ timestamp := 5000000, duration := 3000000,
                 data := [("app", "x"), ("title", "t")],
                 id := some 1 } : Event) ∈
      peewee_get_events
        [{ id := 1, bucket := 7, timestamp := 0, duration := 10000000,
           data := [("app", "x"), ("title", "t")], app := "x",
           title := "t", url := "", application_name := "x",
           server_sync_status := 0 }] 7 (-1) (some 5000000)
        (some 8000000) := by
    rw [hcomp]
    exact List.mem_singleton.mpr rfl
  exact ⟨hmem, C2_amended _ 7 (-1) 5000000 8000000 _ hmem⟩

/-- C4: an event whose data carries an empty title or an empty app is
dropped by PeeweeStorage.insert_one: the row list, and therefore
get_eventcount, are unchanged, and the event is returned as it came. -/
theorem C4_empty_app_or_title_dropped (rows : List EventRow)
    (now nid bucket : Int) (ev : Event) (a t : String)
    (ha : ev.data.lookup "app" = some a)
    (ht : ev.data.lookup "title" = some t)
    (h : t = "" ∨ a = "") :
    peewee_insert_one rows now nid bucket ev = some (rows, ev.id) ∧
    peewee_get_eventcount
        (((peewee_insert_one rows now nid bucket ev).getD
          (rows, none)).1) bucket none none =
      peewee_get_eventcount rows bucket none none := by
  have hmain : peewee_insert_one rows now nid bucket ev =
      some (rows, ev.id) := by
    unfold peewee_insert_one
    rw [ha, ht]
    have : ¬ (t ≠ "" ∧ a ≠ "") := by
      rcases h with h | h
      · intro hc; exact hc.1 h
      · intro hc; exact hc.2 h
    simp [this]
  exact ⟨hmain, by simp [hmain]⟩

/-- C4 witness: inserting the AFK-noise event with empty app and title
into an empty store leaves the count at zero, reproducing the spec's
scenario. -/
theorem C4_empty_app_or_title_dropped_witness :
    peewee_insert_one [] 0 1 7
        { timestamp := 0, duration := 1000000,
          data := [("app", ""), ("title", "")] } = some ([], none) ∧
    peewee_get_eventcount [] 7 none none = 0 := by
  have := C4_empty_app_or_title_dropped [] 0 1 7
    { timestamp := 0, duration := 1000000,
      data := [("app", ""), ("title", "")] } "" "" rfl rfl (Or.inl rfl)
  exact ⟨this.1, rfl⟩

/-! ### Claim C1 -/

/-- C1 counterexample: two events sharing non-empty app and title and the
same application_name, with the second event's timestamp equal to the
second insert time (well within 70 seconds of it), still produce TWO rows,
because the coalescing lookup requires the STORED event's timestamp to be
within 70 seconds of the insert time, and the first event is 100 seconds
old. -/
theorem C1_counterexample :
    (Option.bind
      (peewee_insert_one [] 0 1 7
        { timestamp := 0, duration := 5000000,
          data := [("app", "fox"), ("title", "doc")] })
      (fun p => peewee_insert_one p.1 100000000 2 7
        { timestamp := 100000000, duration := 5000000,
          data := [("app", "fox"), ("title", "doc")] })).map
      (fun p => p.1.length) = some 2 ∧
    ({ timestamp := 0, duration := 5000000,
       data := [("app", "fox"), ("title", "doc")] } : Event).application_name
      = ({ timestamp := 100000000, duration := 5000000,
           data := [("app", "fox"), ("title", "doc")] } :
          Event).application_name ∧
    ({ timestamp := 0, duration := 5000000,
       data := [("app", "fox"), ("title", "doc")] } : Event).title
      = ({ timestamp := 100000000, duration := 5000000,
           data := [("app", "fox"), ("title", "doc")] } : Event).title ∧
    ({ timestamp := 0, duration := 5000000,
       data := [("app", "fox"), ("title", "doc")] } : Event).app ≠ "" ∧
    ({ timestamp := 0, duration := 5000000,
       data := [("app", "fox"), ("title", "doc")] } : Event).title ≠ "" ∧
    (100000000 : Int) - 100000000 ≤ 70000000 := by
  refine ⟨rfl, rfl, rfl, by decide, by decide, by decide⟩

/-- C1 amended: coalescing triggers when the STORED event's row (whose
application_name is the one computed by EventModel.from_event) matches the
new event's application_name and title, the stored timestamp is within 70
seconds of the time of the second insert, and the new event's
application_name does not contain afk; then the store keeps exactly one
row for the pair, with duration e1.duration + e2.duration and sync status
0, and insert_one returns the existing row's id. -/
theorem C1_amended (e1 e2 : Event) (now1 now2 id1 id2 bucket : Int)
    (a1 t1 a2 t2 : String)
    (ha1 : e1.data.lookup "app" = some a1) (ha1n : a1 ≠ "")
    (ht1 : e1.data.lookup "title" = some t1) (ht1n : t1 ≠ "")
    (ha2 : e2.data.lookup "app" = some a2) (ha2n : a2 ≠ "")
    (ht2 : e2.data.lookup "title" = some t2) (ht2n : t2 ≠ "")
    (hafk : strContains e2.application_name "afk" = false)
    (hname : from_event_app_name e1 = e2.application_name)
    (htitle : e1.title = e2.title)
    (hwin : now2 - 70000000 ≤ e1.timestamp) :
    peewee_insert_one [] now1 id1 bucket e1 =
      some ([freshRow bucket id1 e1], some id1) ∧
    (freshRow bucket id1 e1).duration = e1.duration ∧
    (freshRow bucket id1 e1).id = id1 ∧
    peewee_insert_one [freshRow bucket id1 e1] now2 id2 bucket e2 =
      some ([{ freshRow bucket id1 e1 with
        duration := e1.duration + e2.duration,
        server_sync_status := 0 }], some id1) := by
  have hga1 : (e1.data.lookup "app").getD "" = a1 := by rw [ha1]; rfl
  have hgt1 : (e1.data.lookup "title").getD "" = t1 := by rw [ht1]; rfl
  have hga2 : (e2.data.lookup "app").getD "" = a2 := by rw [ha2]; rfl
  have hgt2 : (e2.data.lookup "title").getD "" = t2 := by rw [ht2]; rfl
  refine ⟨?_, rfl, rfl, ?_⟩
  · simp only [peewee_insert_one, ha1, ht1]
    rw [if_pos ⟨ht1n, ha1n⟩]
    simp only [from_event, hga1, hgt1]
    rw [if_pos ⟨ha1n, ht1n⟩]
    rfl
  · simp only [peewee_insert_one, ha2, ht2]
    rw [if_pos ⟨ht2n, ha2n⟩]
    simp only [from_event, hga2, hgt2]
    rw [if_pos ⟨ha2n, ht2n⟩]
    have hlk : lastEventByAppTitlePulsetime [freshRow bucket id1 e1] now2
        e2.application_name e2.title = some (freshRow bucket id1 e1) := by
      unfold lastEventByAppTitlePulsetime
      have hp : ((freshRow bucket id1 e1).application_name =
            e2.application_name &&
          (freshRow bucket id1 e1).title = e2.title &&
          decide (now2 - 70000000 ≤
            (freshRow bucket id1 e1).timestamp)) = true := by
        simp only [freshRow, Bool.and_eq_true, decide_eq_true_eq]
        exact ⟨⟨hname, htitle⟩, hwin⟩
      simp only [List.filter, hp, List.foldl]
    rw [hlk]
    simp [hafk, freshRow]

/-- C1 amended witness: a stored row 30 seconds old (within the 70-second
window of the second insert) absorbs the second event's duration, resets
the sync status, and the insert returns the stored row's id. -/
theorem C1_amended_witness :
    (30000000 : Int) - 70000000 ≤
      ({ timestamp := 0, duration := 5000000,
         data := [("app", "fox"), ("title", "doc")] } : Event).timestamp ∧
    peewee_insert_one
        [freshRow 7 1
          { timestamp := 0, duration := 5000000,
            data := [("app", "fox"), ("title", "doc")] }] 30000000 2 7
        { timestamp := 30000000, duration := 5000000,
          data := [("app", "fox"), ("title", "doc")] } =
      some ([{ freshRow 7 1
          { timestamp := 0, duration := 5000000,
            data := [("app", "fox"), ("title", "doc")] } with
        duration := 10000000,
        server_sync_status := 0 }], some 1) := by
  refine ⟨by decide, ?_⟩
  exact (C1_amended
    { timestamp := 0, duration := 5000000,
      data := [("app", "fox"), ("title", "doc")] }
    { timestamp := 30000000, duration := 5000000,
      data := [("app", "fox"), ("title", "doc")] }
    0 30000000 1 2 7 "fox" "doc" "fox" "doc"
    rfl (by decide) rfl (by decide) rfl (by decide) rfl (by decide)
    rfl rfl rfl (by decide)).2.2.2

/-! ### A heap model for the in-place effects of the transforms
(aw_transform/heartbeats.py, split_url_events.py,
filter_period_intersect.py) and of MemoryStorage reads
(aw_datastore/storages/memory.py).

Event objects live in a heap (a list indexed by address); Python lists of
events are lists of addresses.  A function's effect on its caller's list
is returned explicitly alongside its result. -/

/-- Read the event at an address (out-of-range reads yield a default
event; all modelled programs only read valid addresses). -/
def readE (h : List Event) (a : Nat) : Event :=
  (h[a]?).getD { timestamp := 0, duration := 0 }

/-- Overwrite the event at an address. -/
def writeE (h : List Event) (a : Nat) (e : Event) : List Event :=
  h.set a e

/-- Writing at one address leaves every other address unchanged. -/
theorem readE_writeE_ne (h : List Event) (i j : Nat) (v : Event)
    (hij : i ≠ j) : readE (writeE h i v) j = readE h j := by
  unfold readE writeE
  rw [List.getElem?_set_ne hij]

/-- Clearing the data of the event at an address leaves empty data there
(trivially so for an out-of-range address, whose read is the default
event). -/
theorem readE_writeE_data (h : List Event) (i : Nat) :
    (readE (writeE h i { readE h i with data := [] }) i).data = [] := by
  unfold readE writeE
  by_cases hi : i < h.length
  · rw [List.getElem?_set_eq_of_lt _ hi]
    rfl
  · rw [List.set_eq_of_length_le (le_of_not_lt hi),
      List.getElem?_eq_none (le_of_not_lt hi)]
    rfl

/-- heartbeat_merge on the heap: the merged event is written back into the
last event's cell (the Python function mutates last_event.duration and
returns the same object). -/
def heartbeat_merge_heap (h : List Event) (lastA hbA : Nat) (p : Int) :
    Option (List Event) :=
  match heartbeat_merge (readE h lastA) (readE h hbA) p with
  | some m => some (writeE h lastA m)
  | none => none

/-- The loop of heartbeat_reduce on the heap: reduced[-1] keeps its
address across merges; a declined merge appends the heartbeat's address. -/
def hbReduceHeapGo (p : Int) (h : List Event) (last : Nat)
    (done : List Nat) : List Nat → List Event × List Nat
  | [] => (h, done ++ [last])
  | b :: t =>
    match heartbeat_merge_heap h last b p with
    | some h' => hbReduceHeapGo p h' last done t
    | none => hbReduceHeapGo p h b (done ++ [last]) t

/-- heartbeat_reduce on the heap: events.pop(0) removes the head from the
caller's list, so the third component, the caller's list after the call,
is the tail of the input. -/
def heartbeat_reduce_heap (h : List Event) (events : List Nat) (p : Int) :
    List Event × List Nat × List Nat :=
  match events with
  | [] => (h, [], [])
  | a :: rest =>
    ((hbReduceHeapGo p h a [] rest).1, (hbReduceHeapGo p h a [] rest).2,
      rest)

/-- Joining a list of strings with a separator. -/
def strIntercalate (sep : String) : List String → String
  | [] => ""
  | x :: t => t.foldl (fun acc y => acc ++ sep ++ y) x

/-- The components urllib.parse.urlparse yields for a url. -/
structure ParsedUrl where
  scheme : String
  netloc : String
  path : String
  params : String
  query : String
  fragment : String

/-- Modelled from the spec: urllib.parse.urlparse is standard-library code
absent from the source tree; the spec names the pieces split_url_events
extracts.  The fragment follows the first hash sign, the query the first
question mark, the scheme precedes ://, the netloc runs to the next
slash, the path is the remainder; params stay empty. -/
def urlparse (s : String) : ParsedUrl :=
  let p1 := strSplitOn s "#"
  let beforeFrag := p1.headD ""
  let fragment := strIntercalate "#" p1.tail
  let p2 := strSplitOn beforeFrag "?"
  let beforeQ := p2.headD ""
  let query := strIntercalate "?" p2.tail
  let p3 := strSplitOn beforeQ "://"
  if p3.length ≥ 2 then
    let scheme := p3.headD ""
    let rest := strIntercalate "://" p3.tail
    let p4 := strSplitOn rest "/"
    let netloc := p4.headD ""
    let path :=
      if p4.tail = [] then "" else "/" ++ strIntercalate "/" p4.tail
    { scheme := scheme, netloc := netloc, path := path, params := "",
      query := query, fragment := fragment }
  else
    { scheme := "", netloc := "", path := beforeQ, params := "",
      query := query, fragment := fragment }

/-- Python dict assignment on the association-list data: replace the value
of an existing key in place, else append the new pair. -/
def setKey : List (String × String) → String → String →
    List (String × String)
  | [], k, v => [(k, v)]
  | (k', v') :: t, k, v =>
    if k' = k then (k, v) :: t else (k', v') :: setKey t k v

/-- split_url_events on the heap: every event whose data holds a url has
the six parsed components written into its data in place; the function
returns the very list it was given, so the caller's list is unchanged but
its events are not. -/
def split_url_events_heap (h : List Event) (events : List Nat) :
    List Event × List Nat × List Nat :=
  (events.foldl (fun hh a =>
    let e := readE hh a
    match e.data.lookup "url" with
    | some url =>
      let pu := urlparse url
      let dom :=
        if (pu.netloc.toList.take 4).asString = "www." then
          (pu.netloc.toList.drop 4).asString
        else pu.netloc
      let newData :=
        setKey (setKey (setKey (setKey (setKey (setKey e.data
          "$protocol" pu.scheme) "$domain" dom) "$path" pu.path)
          "$params" pu.params) "$options" pu.query)
          "$identifier" pu.fragment
      writeE hh a { e with data := newData }
    | none => hh) h, events, events)

/-- The merge loop of period_union on the heap: touching or overlapping
closed intervals are merged into a deep copy (a fresh address) replacing
the last entry; others are appended as they are (their original
addresses). -/
def puGo (h : List Event) (done : List Nat) (lastA : Nat) :
    List Nat → List Event × List Nat
  | [] => (h, done ++ [lastA])
  | b :: t =>
    let e := readE h b
    let le := readE h lastA
    if e.timestamp ≤ le.timestamp + le.duration ∧
        le.timestamp ≤ e.timestamp + e.duration then
      let s := min le.timestamp e.timestamp
      let en := max (le.timestamp + le.duration)
        (e.timestamp + e.duration)
      puGo (h ++ [{ le with timestamp := s, duration := en - s }]) done
        h.length t
    else puGo h (done ++ [lastA]) b t

/-- The final loop of period_union: clear the data of every event in the
merged list, in place. -/
def clearData : List Event → List Nat → List Event
  | h, [] => h
  | h, r :: t => clearData (writeE h r { readE h r with data := [] }) t

/-- period_union on the heap: sort the combined address list by timestamp,
pop the head, merge the walk, then strip all data. -/
def period_union_heap (h : List Event) (evs1 evs2 : List Nat) :
    List Event × List Nat :=
  match sortByKey (fun a => (readE h a).timestamp) (evs1 ++ evs2) with
  | [] => (h, [])
  | a :: rest =>
    (clearData (puGo h [] a rest).1 (puGo h [] a rest).2,
      (puGo h [] a rest).2)

/-- Data already cleared at an address stays cleared through further
clearing writes. -/
theorem clearData_keep (addrs : List Nat) : ∀ (h : List Event) (x : Nat),
    (readE h x).data = [] → (readE (clearData h addrs) x).data = [] := by
  induction addrs with
  | nil => intro h x hx; exact hx
  | cons y t ih =>
      intro h x hx
      show (readE (clearData (writeE h y { readE h y with data := [] }) t)
        x).data = []
      apply ih
      by_cases hxy : y = x
      · subst hxy
        exact readE_writeE_data h y
      · rw [readE_writeE_ne _ _ _ _ hxy]
        exact hx

/-- After the clearing loop, every listed address holds empty data. -/
theorem clearData_mem (addrs : List Nat) : ∀ (h : List Event),
    ∀ r ∈ addrs, (readE (clearData h addrs) r).data = [] := by
  induction addrs with
  | nil => intro h r hr; cases hr
  | cons y t ih =>
      intro h r hr
      rcases List.mem_cons.mp hr with hry | hrt
      · subst hry
        exact clearData_keep t _ r (readE_writeE_data h r)
      · exact ih _ r hrt

/-! ### Claim C8 -/

/-- C8 counterexample: heartbeat_reduce pops the first element off the
caller's list; after reducing a one-event list the caller's list is empty,
not the original singleton, so the transform mutates its input. -/
theorem C8_counterexample :
    (heartbeat_reduce_heap
      [{ timestamp := 0, duration := 1000000, data := [("a", "b")] }]
      [0] 0).2.2 ≠ [0] := by
  decide

/-- C8 amended: the three transforms act in place: heartbeat_reduce
consumes the head of the caller's list (what remains is the tail);
split_url_events returns the very list it was given and likewise leaves
the caller's list in place (its events are enriched in the heap); and
after period_union every returned event has had its data cleared in the
heap, including input events that were passed through unmerged. -/
theorem C8_amended :
    (∀ (h : List Event) (events : List Nat) (p : Int), events ≠ [] →
      (heartbeat_reduce_heap h events p).2.2 = events.tail) ∧
    (∀ (h : List Event) (events : List Nat),
      (split_url_events_heap h events).2.1 = events ∧
      (split_url_events_heap h events).2.2 = events) ∧
    (∀ (h : List Event) (evs1 evs2 : List Nat),
      ∀ r ∈ (period_union_heap h evs1 evs2).2,
        (readE (period_union_heap h evs1 evs2).1 r).data = []) := by
  refine ⟨?_, ?_, ?_⟩
  · intro h events p hne
    cases events with
    | nil => exact absurd rfl hne
    | cons a rest => rfl
  · intro h events
    exact ⟨rfl, rfl⟩
  · intro h evs1 evs2 r hr
    cases hs : sortByKey (fun a => (readE h a).timestamp)
        (evs1 ++ evs2) with
    | nil =>
        simp only [period_union_heap, hs] at hr
        cases hr
    | cons a rest =>
        simp only [period_union_heap, hs] at hr ⊢
        exact clearData_mem _ _ r hr

/-- C8 amended witness: the three in-place effects at concrete inputs: the
singleton list is consumed to its tail, split_url_events hands back its
input list, and the event merged by period_union has empty data. -/
theorem C8_amended_witness :
    ([0] : List Nat) ≠ [] ∧
    (heartbeat_reduce_heap
      [{ timestamp := 0, duration := 1000000, data := [("a", "b")] }]
      [0] 0).2.2 = ([0] : List Nat).tail ∧
    (split_url_events_heap
      [{ timestamp := 0, duration := 1000000,
         data := [("url", "https://www.ex.com/p?q=1#f")] }] [0]).2.1 =
      [0] ∧
    (readE (period_union_heap
        [{ timestamp := 0, duration := 5000000, data := [("x", "1")] },
         { timestamp := 2000000, duration := 5000000,
           data := [("y", "2")] }] [0] [1]).1 2).data = [] := by
  refine ⟨by decide, C8_amended.1 _ [0] 0 (by decide),
    (C8_amended.2.1 _ [0]).1, C8_amended.2.2 _ [0] [1] 2 ?_⟩
  decide

/-! ### MemoryStorage reads as deep copies (claim C9) -/

/-- The state of a MemoryStorage: the heap of event objects and the map
from bucket id to the stored list of event addresses. -/
structure MemState where
  heap : List Event
  db : List (String × List Nat)

/-- Well-formedness: every stored address points into the heap. -/
def mem_valid (st : MemState) : Prop :=
  ∀ p ∈ st.db, ∀ a ∈ p.2, a < st.heap.length

/-- MemoryStorage.get_events on the heap: compute the selected event
values, deep-copy them (allocate fresh addresses at the end of the heap),
and return those fresh addresses. -/
def mem_get_events_heap (st : MemState) (bucket : String) (limit : Int)
    (sta et : Option Int) : MemState × List Nat :=
  let addrs := (st.db.lookup bucket).getD []
  let vals := memory_select (addrs.map (readE st.heap)) limit sta et
  (⟨st.heap ++ vals, st.db⟩, List.range' st.heap.length vals.length)

/-- MemoryStorage._get_event on the stored values: of the events whose id
matches, the one at the greatest index (the reversed-enumerate scan takes
the first hit from the back). -/
def mem_get_event_val (evs : List Event) (eid : Int) : Option Event :=
  (evs.filter (fun e => e.id == some eid)).getLast?

/-- MemoryStorage.get_event on the heap: deep-copy the found event to a
fresh address; None stays None. -/
def mem_get_event_heap (st : MemState) (bucket : String) (eid : Int) :
    MemState × Option Nat :=
  let addrs := (st.db.lookup bucket).getD []
  match mem_get_event_val (addrs.map (readE st.heap)) eid with
  | none => (st, none)
  | some v => (⟨st.heap ++ [v], st.db⟩, some st.heap.length)

/-- C9: in a well-formed MemoryStorage the events returned by get_events
and get_event live at fresh addresses, distinct from every stored address,
so overwriting a returned event (mutating it) leaves every event held in
the store unchanged. -/
theorem C9_deep_copies (st : MemState) (bucket : String) (limit : Int)
    (sta et : Option Int) (eid : Int) (hv : mem_valid st) :
    (∀ r ∈ (mem_get_events_heap st bucket limit sta et).2,
      ∀ p ∈ st.db, ∀ b ∈ p.2,
        r ≠ b ∧ ∀ v : Event,
          readE (writeE
            (mem_get_events_heap st bucket limit sta et).1.heap r v) b =
          readE (mem_get_events_heap st bucket limit sta et).1.heap b) ∧
    (∀ r, (mem_get_event_heap st bucket eid).2 = some r →
      ∀ p ∈ st.db, ∀ b ∈ p.2,
        r ≠ b ∧ ∀ v : Event,
          readE (writeE (mem_get_event_heap st bucket eid).1.heap r v) b =
          readE (mem_get_event_heap st bucket eid).1.heap b) := by
  constructor
  · intro r hr p hp b hb
    simp only [mem_get_events_heap] at hr
    have hrge : st.heap.length ≤ r := (List.mem_range'_1.mp hr).1
    have hblt : b < st.heap.length := hv p hp b hb
    have hne : r ≠ b := by omega
    exact ⟨hne, fun v => readE_writeE_ne _ _ _ _ hne⟩
  · intro r hrr p hp b hb
    have hblt : b < st.heap.length := hv p hp b hb
    cases hm : mem_get_event_val
        (((st.db.lookup bucket).getD []).map (readE st.heap)) eid with
    | none =>
        simp only [mem_get_event_heap, hm] at hrr
        cases hrr
    | some v =>
        simp only [mem_get_event_heap, hm] at hrr ⊢
        have hr : r = st.heap.length := (Option.some.injEq _ _).mp hrr.symm
        have hne : r ≠ b := by omega
        exact ⟨hne, fun w => readE_writeE_ne _ _ _ _ hne⟩

/-- C9 witness: for a one-event store, the address returned by get_events
is fresh, and overwriting it leaves the stored event readable unchanged. -/
theorem C9_deep_copies_witness :
    mem_valid
      ⟨[{ timestamp := 0, duration := 1000000,
          data := [("k", "v")], id := some 5 }], [("b", [0])]⟩ ∧
    (1 : Nat) ≠ 0 ∧
    readE (writeE
        (mem_get_events_heap
          ⟨[{ timestamp := 0, duration := 1000000,
              data := [("k", "v")], id := some 5 }], [("b", [0])]⟩
          "b" (-1) none none).1.heap 1
        { timestamp := 9, duration := 9 }) 0 =
      readE (mem_get_events_heap
          ⟨[{ timestamp := 0, duration := 1000000,
              data := [("k", "v")], id := some 5 }], [("b", [0])]⟩
          "b" (-1) none none).1.heap 0 := by
  have h1 := (C9_deep_copies
    ⟨[{ timestamp := 0, duration := 1000000,
        data := [("k", "v")], id := some 5 }], [("b", [0])]⟩
    "b" (-1) none none 5 (by simp only [mem_valid]; decide)).1 1
    (by decide) ("b", [0]) (by decide) 0 (by decide)
  exact ⟨by simp only [mem_valid]; decide, h1.1, h1.2 _⟩
